import Mathlib

/-
  Verification development for the AZTEC client-side proof-construction engine.

  The JavaScript sources are shallowly embedded as Lean functions:
  - Scalars mod n (the BN128 group order) are natural numbers with explicit
    reductions, mirroring the bn.js red-context operations redAdd / redMul /
    redSub used by the source.
  - BN128 group points are modelled abstractly: a type G with an additive
    commutative group structure (the elliptic curve group) together with
    affine-coordinate projections px / py used for hashing and validation.
    The source only ever adds points and multiplies them by scalars, so every
    theorem proved over an arbitrary PointGroup instance holds for the real
    curve group.
  - The external keccak256 digest primitive (the js-sha3 dependency) is a
    parameter kf : List Nat -> Nat; the repository's Keccak transcript class
    (append / finalize-and-reseed semantics) is modelled on top of it.
  - Randomness is a stream rs : Nat -> Nat consumed in draw order;
    randomGroupScalar reduces a draw into the scalar field, modelling the
    rejection sampling of bn128.randomGroupScalar.
-/

namespace Aztec

/-- The order n of the BN128 group: all sigma-protocol scalars live in [0, n). -/
def nOrder : Nat := 21888242871839275222246405745257275088548364400416034343698204186575808495617

/-- The BN128 base-field prime p: affine coordinates live in [0, p). -/
def pField : Nat := 21888242871839275222246405745257275088696311157297823662689037894645226208583

/-- Maximum committed note value, 2^32 - 1. -/
def K_MAX : Nat := 4294967295

theorem nOrder_pos : 0 < nOrder := by decide

/-- Mod-n addition: bn.js redAdd in the groupReduction context. -/
def redAdd (a b : Nat) : Nat := (a + b) % nOrder

/-- Mod-n multiplication: bn.js redMul in the groupReduction context. -/
def redMul (a b : Nat) : Nat := (a * b) % nOrder

/-- Mod-n subtraction of canonical scalars (b < n): bn.js redSub. -/
def redSub (a b : Nat) : Nat := (a + nOrder - b) % nOrder

/-- A scalar drawn from the CSPRNG stream, reduced into [0, n); models
bn128.randomGroupScalar (rejection sampling from 32 random bytes). -/
def randomGroupScalar (rs : Nat → Nat) (j : Nat) : Nat := rs j % nOrder

/-- The BN128 group, abstractly: an additive commutative group with affine
coordinate projections. The group identity (point at infinity) projects to
the coordinate pair (0, 0), as in the source's encoding. -/
class PointGroup (G : Type) extends AddCommGroup G where
  px : G → Nat
  py : G → Nat
  px_zero : px 0 = 0
  py_zero : py 0 = 0

export PointGroup (px py)

/-- On-curve test from the source's validation: coordinates canonical in
[0, p) and y^2 = x^3 + 3 (mod p). -/
def onCurve {G : Type} [PointGroup G] (g : G) : Prop :=
  px g < pField ∧ py g < pField ∧ (py g) ^ 2 % pField = ((px g) ^ 3 + 3) % pField

instance {G : Type} [PointGroup G] (g : G) : Decidable (onCurve g) := by
  unfold onCurve; infer_instance

/-- Test for the point at infinity, encoded as the coordinate pair (0, 0). -/
def atInfinity {G : Type} [PointGroup G] (g : G) : Prop := px g = 0 ∧ py g = 0

instance {G : Type} [PointGroup G] (g : G) : Decidable (atInfinity g) := by
  unfold atInfinity; infer_instance

/-- An AZTEC note: committed value k, viewing key a, commitment points
gamma and sigma, and the owner address. -/
structure Note (G : Type) where
  k : Nat
  a : Nat
  gamma : G
  sigma : G
  owner : Nat

/-- The Keccak transcript buffer: an append-only list of 32-byte big-endian
chunks, each modelled by the natural number it encodes. -/
structure Keccak where
  data : List Nat

namespace Keccak

/-- A fresh transcript, new Keccak(). -/
def new : Keccak := ⟨[]⟩

/-- Append a scalar, left-padded to one 32-byte chunk. -/
def appendScalar (st : Keccak) (s : Nat) : Keccak := ⟨st.data ++ [s]⟩

/-- Append a group point: its x coordinate then its y coordinate. -/
def appendPoint {G : Type} [PointGroup G] (st : Keccak) (g : G) : Keccak :=
  ⟨st.data ++ [px g, py g]⟩

/-- Finalize the buffer with the keccak256 primitive kf, reduce the digest
into the requested modulus, and reseed the buffer with the digest so that
further use chains (the rolling-hash behaviour of the source's keccak
method). Returns (reduced digest, updated transcript). -/
def keccak (kf : List Nat → Nat) (st : Keccak) (modulus : Nat) : Nat × Keccak :=
  let d := kf st.data
  (d % modulus, ⟨[d]⟩)

end Keccak

/-- Append every note's gamma and sigma points, in order, to a transcript. -/
def appendNotes {G : Type} [PointGroup G] (st : Keccak) (notes : List (Note G)) : Keccak :=
  notes.foldl (fun s note => (s.appendPoint note.gamma).appendPoint note.sigma) st

/-- A per-note blinding-factor record: fresh scalars bk, ba and the derived
blinding point B. -/
structure BlindingFactor (G : Type) where
  bk : Nat
  ba : Nat
  B : G

/-- The closed error taxonomy of the proof utilities. -/
inductive ErrorCode where
  | INCORRECT_NOTE_NUMBER
  | KPUBLIC_MALFORMED
  | M_TOO_BIG
  | NOT_ON_CURVE
  | POINT_AT_INFINITY
  | VIEWING_KEY_MALFORMED
  | NOTE_VALUE_TOO_BIG
  | BAD_BLINDING_FACTOR
  deriving DecidableEq

/-- Modelled from the spec: the per-note validation performed by
proofUtils.parseInputs (the proofUtils source is not under src/; its checks
are specified in sections 4.A, 4.E and exercised by the join-split tests).
Checks, in order: the viewing key lies in (0, n); the value is at most
K_MAX; neither commitment point is the point at infinity; both commitment
points are on the curve. -/
def checkNote {G : Type} [PointGroup G] (note : Note G) : Except ErrorCode Unit :=
  if note.a = 0 ∨ nOrder ≤ note.a then .error .VIEWING_KEY_MALFORMED
  else if K_MAX < note.k then .error .NOTE_VALUE_TOO_BIG
  else if atInfinity note.gamma ∨ atInfinity note.sigma then .error .POINT_AT_INFINITY
  else if ¬ (onCurve note.gamma ∧ onCurve note.sigma) then .error .NOT_ON_CURVE
  else .ok ()

/-- Run checkNote over a list of notes, stopping at the first failure. -/
def checkNotes {G : Type} [PointGroup G] : List (Note G) → Except ErrorCode Unit
  | [] => .ok ()
  | note :: rest =>
    match checkNote note with
    | .error e => .error e
    | .ok _ => checkNotes rest

/-- Modelled from the spec: proofUtils.parseInputs (source not under src/).
Validates every note, then kPublic < n, then m at most the note count.
The note checks come first: the join-split tests expect NOT_ON_CURVE even
when m is simultaneously malformed. -/
def parseInputs {G : Type} [PointGroup G] (notes : List (Note G)) (_sender : Nat)
    (m : Nat) (kPublic : Nat) : Except ErrorCode Unit :=
  match checkNotes notes with
  | .error e => .error e
  | .ok _ =>
    if nOrder ≤ kPublic then .error .KPUBLIC_MALFORMED
    else if notes.length < m then .error .M_TOO_BIG
    else .ok ()

/-- Modelled from the spec: proofUtils.computeChallenge for proofs taking
only (sender, notes, blindingFactors): append the sender, every note's
gamma and sigma, then every blinding point B, and finalize mod n. -/
def computeChallenge {G : Type} [PointGroup G] (kf : List Nat → Nat) (sender : Nat)
    (notes : List (Note G)) (bfs : List (BlindingFactor G)) : Nat :=
  let st := Keccak.new.appendScalar sender
  let st := appendNotes st notes
  let st := bfs.foldl (fun s bf => s.appendPoint bf.B) st
  (st.keccak kf nOrder).1

/-- One lowercase hexadecimal digit. -/
def hexDigit (d : Nat) : Char :=
  if d < 10 then Char.ofNat (48 + d) else Char.ofNat (87 + d)

/-- The 64 hex characters of a value below 16^64, most significant first;
models padLeft(v.toString(16), 64) for canonical 32-byte values. -/
def hexChars (v : Nat) : List Char :=
  (List.range 64).reverse.map fun i => hexDigit (v / 16 ^ i % 16)

/-- A 0x-prefixed, 64-hex-character string. -/
def hexStr (v : Nat) : String :=
  "0x" ++ String.mk (hexChars v)

theorem hexChars_length (v : Nat) : (hexChars v).length = 64 := by
  simp [hexChars]

theorem hexStr_length (v : Nat) : (hexStr v).length = 66 := by
  have h : (String.mk (hexChars v)).length = 64 := by
    show (hexChars v).length = 64
    exact hexChars_length v
  have h2 : ("0x" : String).length = 2 := rfl
  simp [hexStr, String.length_append, h, h2]

namespace privateRange

/-- The loop body of privateRange.constructBlindingFactors: a map over the
notes with index i, threading the mutable bkArray, the previous blinding
point B (JavaScript leaves B unchanged outside the i = 0, 1, 2 branches)
and the rolling-hash transcript. At i = 0 the blinding point uses bk and
ba directly; at i = 1 the rolling hash is finalized to x and both scalars
are multiplied by it; at i = 2 bk is overwritten with bkArray[0] - bkArray[1]
and the rolling hash is finalized again before being applied. -/
def cbfAux {G : Type} [PointGroup G] (h : G) (kf : List Nat → Nat) (rs : Nat → Nat) :
    List (Note G) → Nat → List Nat → G → Keccak → List (BlindingFactor G)
  | [], _, _, _, _ => []
  | note :: rest, i, bkArray, prevB, st =>
    let ba := randomGroupScalar rs (2 * i)
    let bkDrawn := randomGroupScalar rs (2 * i + 1)
    if i = 0 then
      let B := bkDrawn • note.gamma + ba • h
      ⟨bkDrawn, ba, B⟩ :: cbfAux h kf rs rest (i + 1) (bkArray ++ [bkDrawn]) B st
    else if i = 1 then
      let xst := st.keccak kf nOrder
      let B := (redMul bkDrawn xst.1) • note.gamma + (redMul ba xst.1) • h
      ⟨bkDrawn, ba, B⟩ :: cbfAux h kf rs rest (i + 1) (bkArray ++ [bkDrawn]) B xst.2
    else if i = 2 then
      let bk := redSub (bkArray.getD 0 0) (bkArray.getD 1 0)
      let xst := st.keccak kf nOrder
      let B := (redMul bk xst.1) • note.gamma + (redMul ba xst.1) • h
      ⟨bk, ba, B⟩ :: cbfAux h kf rs rest (i + 1) (bkArray ++ [bk]) B xst.2
    else
      ⟨bkDrawn, ba, prevB⟩ :: cbfAux h kf rs rest (i + 1) (bkArray ++ [bkDrawn]) prevB st

/-- privateRange.constructBlindingFactors from src/unnamed/part_002. -/
def constructBlindingFactors {G : Type} [PointGroup G] (h : G) (kf : List Nat → Nat)
    (rs : Nat → Nat) (notes : List (Note G)) (rollingHash : Keccak) :
    List (BlindingFactor G) :=
  cbfAux h kf rs notes 0 [] 0 rollingHash

/-- The per-note transcript records of privateRange.constructProof: for
i = 0, 1 the kBar slot is k * c + bk (mod n); from i = 2 on it is the random
filler rb reduced mod n; the aBar slot is always a * c + ba (mod n); the
remaining four slots are the affine coordinates of gamma and sigma. -/
def prRecords {G : Type} [PointGroup G] (rb c : Nat) :
    Nat → List (Note G) → List (BlindingFactor G) → List (List Nat)
  | _, [], _ => []
  | _, _ :: _, [] => []
  | i, note :: ns, bf :: bfs =>
    [if i ≤ 1 then redAdd (redMul note.k c) bf.bk else rb % nOrder,
     redAdd (redMul note.a c) bf.ba,
     px note.gamma, py note.gamma, px note.sigma, py note.sigma]
      :: prRecords rb c (i + 1) ns bfs

/-- The output of privateRange.constructProof: the per-note records (each
hex field modelled by the value it encodes) and the challenge scalar. -/
structure PRProofOutput where
  proofData : List (List Nat)
  challenge : Nat
  deriving DecidableEq

/-- privateRange.constructProof from src/unnamed/part_002: validate, build
the rolling hash over all notes' (gamma, sigma), derive the blinding
factors, compute the Fiat-Shamir challenge and emit the transcript records.
rb is the crypto.randomBytes(32) value drawn for the third kBar slot. -/
def constructProof {G : Type} [PointGroup G] (kf : List Nat → Nat) (rs : Nat → Nat)
    (rb : Nat) (h : G) (notes : List (Note G)) (sender : Nat) :
    Except ErrorCode PRProofOutput :=
  match parseInputs notes sender 0 0 with
  | .error e => .error e
  | .ok _ =>
    let rollingHash := appendNotes Keccak.new notes
    let blindingFactors := constructBlindingFactors h kf rs notes rollingHash
    let challenge := computeChallenge kf sender notes blindingFactors
    .ok ⟨prRecords rb challenge 0 notes blindingFactors, challenge⟩

/-- One proofOutput entry handed to abiEncoder.outputCoder.encodeProofOutputs. -/
structure ProofOutputEntry (G : Type) where
  inputNotes : List (Note G)
  outputNotes : List (Note G)
  publicOwner : Nat
  publicValue : Nat
  challenge : String

/-- The zero Ethereum address, devUtils.constants.addresses.ZERO_ADDRESS. -/
def ZERO_ADDRESS : Nat := 0

/-- privateRange.encodePrivateRangeTransaction from src/unnamed/part_002:
concatenate the input and output note arrays, construct the proof, encode
the raw proof data with the input coder ic, and build the expected-output
blob by applying the output coder enc to a single proofOutput entry whose
publicOwner is the zero address and whose publicValue is 0, dropping the
0x42-character prefix. -/
def encodePrivateRangeTransaction {G : Type} [PointGroup G]
    (kf : List Nat → Nat) (rs : Nat → Nat) (rb : Nat) (h : G)
    (ic : List (List Nat) → String → List Nat → List Nat → List (Note G) → String)
    (enc : List (ProofOutputEntry G) → String)
    (originalNote comparisonNote utilityNote : List (Note G)) (senderAddress : Nat) :
    Except ErrorCode (String × String) :=
  let inputNotes := originalNote ++ comparisonNote
  let outputNotes := utilityNote
  let inputOwners := inputNotes.map (fun m => m.owner)
  let outputOwners := outputNotes.map (fun n => n.owner)
  match constructProof kf rs rb h (inputNotes ++ outputNotes) senderAddress with
  | .error e => .error e
  | .ok r =>
    let proofData := ic r.proofData (hexStr r.challenge) inputOwners outputOwners outputNotes
    let publicOwner := ZERO_ADDRESS
    let publicValue := 0
    let expectedOutput :=
      "0x" ++ (enc [⟨inputNotes, outputNotes, publicOwner, publicValue,
                     hexStr r.challenge⟩]).drop 0x42
    .ok (proofData, expectedOutput)

end privateRange

namespace joinSplit

/-- Modelled from the spec: the (bk, ba) scalar draws of the join-split
constructor (section 4.F; the joinSplit source is not under src/), one
fresh pair per note. -/
def blindingScalars (rs : Nat → Nat) (N : Nat) : List (Nat × Nat) :=
  (List.range N).map fun i =>
    (randomGroupScalar rs (2 * i + 1), randomGroupScalar rs (2 * i))

/-- Modelled from the spec: constrain the m-th input note's bk so the
signed bk sums balance against bkPublic (section 4.F step 2); N * nOrder is
added before the truncated subtraction so the value stays a faithful mod-n
difference for canonical scalars. -/
def constrainBk (bks : List Nat) (m : Nat) (bkPublic : Nat) (N : Nat) : List Nat :=
  if m = 0 then bks
  else
    let sumOut := (bks.drop m).foldl (· + ·) 0
    let sumInInit := (bks.take (m - 1)).foldl (· + ·) 0
    bks.set (m - 1) ((bkPublic + sumOut + N * nOrder - sumInInit) % nOrder)

/-- Modelled from the spec: the join-split challenge transcript (sections
3 and 4.E): sender, kPublic, m, every note's points, every blinding point. -/
def challengeJS {G : Type} [PointGroup G] (kf : List Nat → Nat) (sender kPublic m : Nat)
    (notes : List (Note G)) (bfs : List (BlindingFactor G)) : Nat :=
  let st := (Keccak.new.appendScalar sender).appendScalar kPublic
  let st := st.appendScalar m
  let st := appendNotes st notes
  let st := bfs.foldl (fun s bf => s.appendPoint bf.B) st
  (st.keccak kf nOrder).1

/-- The per-note transcript records of the join-split constructor: every
note gets kBar = k * c + bk and aBar = a * c + ba (mod n), except the final
record, whose kBar slot stores kPublic (section 4.F step 4, the canonical
convention). -/
def mkRecords {G : Type} [PointGroup G] (c kPub : Nat) :
    List (Note G × BlindingFactor G) → List (List Nat)
  | [] => []
  | [(note, bf)] =>
    [[kPub, redAdd (redMul note.a c) bf.ba,
      px note.gamma, py note.gamma, px note.sigma, py note.sigma]]
  | (note, bf) :: q :: rest =>
    [redAdd (redMul note.k c) bf.bk, redAdd (redMul note.a c) bf.ba,
     px note.gamma, py note.gamma, px note.sigma, py note.sigma]
      :: mkRecords c kPub (q :: rest)

/-- The output of joinSplit.constructProof: records, the challenge scalar,
and the challenge as the emitted 0x-prefixed 64-hex-character string. -/
structure JSProofOutput where
  proofData : List (List Nat)
  challenge : Nat
  challengeHex : String
  deriving DecidableEq

/-- Modelled from the spec: joinSplit.constructProof (section 4.F; the
joinSplit source is not under src/, only its test suite): validate, derive
bkPublic from the rolling hash applied to kPublic, draw and constrain the
blinding scalars, form B_i = bk_i * gamma_i + ba_i * h, compute the
challenge and emit the records with kPublic in the final kBar slot. -/
def constructProof {G : Type} [PointGroup G] (kf : List Nat → Nat) (rs : Nat → Nat)
    (h : G) (notes : List (Note G)) (m : Nat) (sender kPublic : Nat) :
    Except ErrorCode JSProofOutput :=
  match parseInputs notes sender m kPublic with
  | .error e => .error e
  | .ok _ =>
    let rollingHash := appendNotes Keccak.new notes
    let x := (rollingHash.keccak kf nOrder).1
    let bkPublic := redMul kPublic x
    let N := notes.length
    let scalars := blindingScalars rs N
    let bks := constrainBk (scalars.map (fun p => p.1)) m bkPublic N
    let bas := scalars.map (fun p => p.2)
    let bfs := List.zipWith
      (fun (note : Note G) (p : Nat × Nat) =>
        (⟨p.1, p.2, p.1 • note.gamma + p.2 • h⟩ : BlindingFactor G))
      notes (bks.zip bas)
    let challenge := challengeJS kf sender kPublic m notes bfs
    .ok ⟨mkRecords challenge kPublic (notes.zip bfs), challenge, hexStr challenge⟩

end joinSplit

namespace bilateralSwap

/-- Modelled from the spec: the bilateral-swap blinding loop (sections 4.F
and 8; the bilateralSwap source is not under src/, only its test). For
i = 0, 1 a fresh bk is drawn; for i = 2, 3 the bk of note i - 2 is reused,
and the rolling hash is finalized and applied multiplicatively. -/
def cbfAux {G : Type} [PointGroup G] (h : G) (kf : List Nat → Nat) (rs : Nat → Nat) :
    List (Note G) → Nat → List Nat → Keccak → List (BlindingFactor G)
  | [], _, _, _ => []
  | note :: rest, i, bkArray, st =>
    let ba := randomGroupScalar rs (2 * i)
    if i < 2 then
      let bk := randomGroupScalar rs (2 * i + 1)
      let B := bk • note.gamma + ba • h
      ⟨bk, ba, B⟩ :: cbfAux h kf rs rest (i + 1) (bkArray ++ [bk]) st
    else
      let bk := bkArray.getD (i - 2) 0
      let xst := st.keccak kf nOrder
      let B := (redMul bk xst.1) • note.gamma + (redMul ba xst.1) • h
      ⟨bk, ba, B⟩ :: cbfAux h kf rs rest (i + 1) (bkArray ++ [bk]) xst.2

/-- Modelled from the spec: proofUtils.getBlindingFactorsAndChallenge as
used by the bilateral-swap constructor and its test (the source is not
under src/): derive the four blinding-factor records from the final rolling
hash, then finalize the transcript extended with the B points into the
challenge. -/
def getBlindingFactorsAndChallenge {G : Type} [PointGroup G] (kf : List Nat → Nat)
    (rs : Nat → Nat) (h : G) (notes : List (Note G)) (finalHash : Keccak) :
    List (BlindingFactor G) × Nat :=
  let bfs := cbfAux h kf rs notes 0 [] finalHash
  let st := bfs.foldl (fun s bf => s.appendPoint bf.B) finalHash
  (bfs, (st.keccak kf nOrder).1)

end bilateralSwap

namespace dividendComputation

/-- Modelled from the spec: the dividend-computation blinding loop
(section 4.F; the dividendComputation source is not under src/, only its
test). The first note's blinding point uses bk, ba directly; from the
second note on the rolling hash is finalized and applied multiplicatively;
the third bk is the za/zb-weighted combination of the first two that
enforces za * k_target = zb * k_principal + k_residual in zero knowledge. -/
def cbfAux {G : Type} [PointGroup G] (za zb : Nat) (h : G) (kf : List Nat → Nat)
    (rs : Nat → Nat) :
    List (Note G) → Nat → List Nat → Keccak → List (BlindingFactor G)
  | [], _, _, _ => []
  | note :: rest, i, bkArray, st =>
    let ba := randomGroupScalar rs (2 * i)
    let bkDrawn := randomGroupScalar rs (2 * i + 1)
    if i = 0 then
      let B := bkDrawn • note.gamma + ba • h
      ⟨bkDrawn, ba, B⟩ :: cbfAux za zb h kf rs rest (i + 1) (bkArray ++ [bkDrawn]) st
    else if i = 1 then
      let xst := st.keccak kf nOrder
      let B := (redMul bkDrawn xst.1) • note.gamma + (redMul ba xst.1) • h
      ⟨bkDrawn, ba, B⟩ :: cbfAux za zb h kf rs rest (i + 1) (bkArray ++ [bkDrawn]) xst.2
    else
      let bk := redSub (redMul zb (bkArray.getD 0 0)) (redMul za (bkArray.getD 1 0))
      let xst := st.keccak kf nOrder
      let B := (redMul bk xst.1) • note.gamma + (redMul ba xst.1) • h
      ⟨bk, ba, B⟩ :: cbfAux za zb h kf rs rest (i + 1) (bkArray ++ [bk]) xst.2

/-- The per-note transcript records of the dividend constructor. -/
def divRecords {G : Type} [PointGroup G] (c : Nat) :
    List (Note G × BlindingFactor G) → List (List Nat)
  | [] => []
  | (note, bf) :: rest =>
    [redAdd (redMul note.k c) bf.bk, redAdd (redMul note.a c) bf.ba,
     px note.gamma, py note.gamma, px note.sigma, py note.sigma]
      :: divRecords c rest

/-- The output of dividendComputation.constructProof: the unformatted
3 x 6 records, the flattened 18-element proofData, the challenge scalar
and its emitted hex string. -/
structure DivProofOutput where
  proofDataUnformatted : List (List Nat)
  proofData : List Nat
  challenge : Nat
  challengeHex : String
  deriving DecidableEq

/-- Modelled from the spec: the dividend challenge transcript: sender, za,
zb, every note's points, every blinding point. -/
def challengeDiv {G : Type} [PointGroup G] (kf : List Nat → Nat) (sender za zb : Nat)
    (notes : List (Note G)) (bfs : List (BlindingFactor G)) : Nat :=
  let st := ((Keccak.new.appendScalar sender).appendScalar za).appendScalar zb
  let st := appendNotes st notes
  let st := bfs.foldl (fun s bf => s.appendPoint bf.B) st
  (st.keccak kf nOrder).1

/-- Modelled from the spec: dividendComputation.constructProof (section
4.F; the source is not under src/, only its test): exactly three notes,
validation, blinding factors chained through the rolling hash, challenge,
and the 3 x 6 records flattened into 18 proofData elements. -/
def constructProof {G : Type} [PointGroup G] (kf : List Nat → Nat) (rs : Nat → Nat)
    (h : G) (notes : List (Note G)) (za zb : Nat) (sender : Nat) :
    Except ErrorCode DivProofOutput :=
  if notes.length ≠ 3 then .error .INCORRECT_NOTE_NUMBER
  else
    match parseInputs notes sender 0 0 with
    | .error e => .error e
    | .ok _ =>
      let rollingHash := appendNotes Keccak.new notes
      let bfs := cbfAux za zb h kf rs notes 0 [] rollingHash
      let challenge := challengeDiv kf sender za zb notes bfs
      let proofDataUnformatted := divRecords challenge (notes.zip bfs)
      .ok ⟨proofDataUnformatted, proofDataUnformatted.flatten, challenge, hexStr challenge⟩

end dividendComputation

/-- A concrete PointGroup instance used to evaluate the development on
explicit inputs: the integers with coordinate projections sending z to
(natAbs z, 2 * natAbs z), so that the element 1 projects to the affine
pair (1, 2), which satisfies y^2 = x^3 + 3, while 0 projects to (0, 0). -/
instance intPointGroup : PointGroup Int :=
  { (inferInstanceAs (AddCommGroup Int)) with
    px := fun z => z.natAbs
    py := fun z => 2 * z.natAbs
    px_zero := rfl
    py_zero := rfl }

/-- Concrete keccak256 stand-in for evaluating the model on explicit
inputs (the primitive is an external dependency, treated as a parameter). -/
def kfW : List Nat → Nat := fun l => l.length + l.foldl (· + ·) 0 % 7

/-- Concrete randomness stream for evaluating the model. -/
def rsW : Nat → Nat := fun j => if j = 1 then 5 else if j = 3 then 3 else 2

/-- A concrete well-formed note over the integer instance: value 1,
viewing key 1, commitment points both 1 (affine pair (1, 2), on curve). -/
def vnote : Note Int := ⟨1, 1, 1, 1, 9⟩

/-- The private-range proof output on the concrete fixture inputs. -/
def outW1 : privateRange.PRProofOutput :=
  ⟨[[27, 24, 1, 2, 1, 2], [25, 24, 1, 2, 1, 2], [7, 24, 1, 2, 1, 2]], 22⟩

/-- The join-split proof output on the concrete five-note fixture inputs. -/
def outW5 : joinSplit.JSProofOutput :=
  ⟨[[41, 38, 1, 2, 1, 2], [37, 38, 1, 2, 1, 2], [38, 38, 1, 2, 1, 2],
    [38, 38, 1, 2, 1, 2], [0, 38, 1, 2, 1, 2]], 36, hexStr 36⟩

/-- The dividend proof output on the concrete fixture inputs. -/
def outD : dividendComputation.DivProofOutput :=
  ⟨[[32, 29, 1, 2, 1, 2], [30, 29, 1, 2, 1, 2], [nOrder - 248, 29, 1, 2, 1, 2]],
   [32, 29, 1, 2, 1, 2, 30, 29, 1, 2, 1, 2, nOrder - 248, 29, 1, 2, 1, 2],
   27, hexStr 27⟩

theorem redAdd_lt (a b : Nat) : redAdd a b < nOrder := Nat.mod_lt _ nOrder_pos

theorem redAdd_redMul (k c bk : Nat) :
    redAdd (redMul k c) bk = (k * c + bk) % nOrder := by
  unfold redAdd redMul
  rw [Nat.mod_add_mod]

theorem redSub_lt (a b : Nat) : redSub a b < nOrder := Nat.mod_lt _ nOrder_pos

theorem randomGroupScalar_lt (rs : Nat → Nat) (j : Nat) :
    randomGroupScalar rs j < nOrder := Nat.mod_lt _ nOrder_pos

/-- redSub computes the mod-n difference of canonical scalars. -/
theorem redSub_modEq (a b : Nat) (hb : b ≤ a + nOrder) :
    Int.ModEq (nOrder : Int) ((redSub a b : Nat) : Int) ((a : Int) - (b : Int)) := by
  show ((redSub a b : Nat) : Int) % (nOrder : Int) = ((a : Int) - b) % (nOrder : Int)
  have h1 : ((a + nOrder - b : Nat) : Int) = (a : Int) - b + (nOrder : Int) * 1 := by
    omega
  unfold redSub
  rw [Int.natCast_mod, h1, Int.emod_emod_of_dvd _ (dvd_refl _), Int.add_mul_emod_self_left]

/-- Closed form of privateRange.constructBlindingFactors on three notes:
B_0 uses the raw scalars; B_1 uses the first finalization x1 of the rolling
hash; B_2 uses the overwritten bk = bk_0 - bk_1 and the second finalization
(the transcript reseeded with the first digest). -/
theorem cbf_three {G : Type} [PointGroup G] (h : G) (kf : List Nat → Nat)
    (rs : Nat → Nat) (n0 n1 n2 : Note G) (st : Keccak) :
    privateRange.constructBlindingFactors h kf rs [n0, n1, n2] st =
      [⟨randomGroupScalar rs 1, randomGroupScalar rs 0,
        randomGroupScalar rs 1 • n0.gamma + randomGroupScalar rs 0 • h⟩,
       ⟨randomGroupScalar rs 3, randomGroupScalar rs 2,
        redMul (randomGroupScalar rs 3) (st.keccak kf nOrder).1 • n1.gamma +
          redMul (randomGroupScalar rs 2) (st.keccak kf nOrder).1 • h⟩,
       ⟨redSub (randomGroupScalar rs 1) (randomGroupScalar rs 3), randomGroupScalar rs 4,
        redMul (redSub (randomGroupScalar rs 1) (randomGroupScalar rs 3))
            (((st.keccak kf nOrder).2).keccak kf nOrder).1 • n2.gamma +
          redMul (randomGroupScalar rs 4)
            (((st.keccak kf nOrder).2).keccak kf nOrder).1 • h⟩] := rfl

/-- Closed form of the private-range records on three notes. -/
theorem prRecords_three {G : Type} [PointGroup G] (rb c : Nat) (n0 n1 n2 : Note G)
    (b0 b1 b2 : BlindingFactor G) :
    privateRange.prRecords rb c 0 [n0, n1, n2] [b0, b1, b2] =
      [[redAdd (redMul n0.k c) b0.bk, redAdd (redMul n0.a c) b0.ba,
        px n0.gamma, py n0.gamma, px n0.sigma, py n0.sigma],
       [redAdd (redMul n1.k c) b1.bk, redAdd (redMul n1.a c) b1.ba,
        px n1.gamma, py n1.gamma, px n1.sigma, py n1.sigma],
       [rb % nOrder, redAdd (redMul n2.a c) b2.ba,
        px n2.gamma, py n2.gamma, px n2.sigma, py n2.sigma]] := rfl

/-- The sigma-protocol response relations of the private-range transcript:
kBar = k * c + bk (mod n) for the first two records, aBar = a * c + ba
(mod n) for all three, against the blinding records actually produced. -/
def responseRelations {G : Type} [PointGroup G] (kf : List Nat → Nat) (rs : Nat → Nat)
    (h : G) (n0 n1 n2 : Note G) (out : privateRange.PRProofOutput) : Prop :=
  let bfs := privateRange.constructBlindingFactors h kf rs [n0, n1, n2]
    (appendNotes Keccak.new [n0, n1, n2])
  let d : BlindingFactor G := ⟨0, 0, 0⟩
  (out.proofData.getD 0 []).getD 0 0 = (n0.k * out.challenge + (bfs.getD 0 d).bk) % nOrder ∧
  (out.proofData.getD 1 []).getD 0 0 = (n1.k * out.challenge + (bfs.getD 1 d).bk) % nOrder ∧
  (out.proofData.getD 0 []).getD 1 0 = (n0.a * out.challenge + (bfs.getD 0 d).ba) % nOrder ∧
  (out.proofData.getD 1 []).getD 1 0 = (n1.a * out.challenge + (bfs.getD 1 d).ba) % nOrder ∧
  (out.proofData.getD 2 []).getD 1 0 = (n2.a * out.challenge + (bfs.getD 2 d).ba) % nOrder

/-- C1. Every private-range proof over three valid notes emits transcript
records satisfying kBar_i = k_i * c + bk_i (mod n) for the first two notes
and aBar_i = a_i * c + ba_i (mod n) for all three notes, where c is the
Fiat-Shamir challenge and (bk_i, ba_i) are the blinding scalars of the
note's blinding-factor record. -/
theorem privateRange_kBar_aBar_responses {G : Type} [PointGroup G]
    (kf : List Nat → Nat) (rs : Nat → Nat) (rb : Nat) (h : G)
    (n0 n1 n2 : Note G) (sender : Nat) (out : privateRange.PRProofOutput)
    (hok : privateRange.constructProof kf rs rb h [n0, n1, n2] sender = .ok out) :
    responseRelations kf rs h n0 n1 n2 out := by
  unfold privateRange.constructProof at hok
  cases hp : parseInputs [n0, n1, n2] sender 0 0 with
  | error e => rw [hp] at hok; cases hok
  | ok u =>
    rw [hp] at hok
    simp only [Except.ok.injEq] at hok
    subst hok
    unfold responseRelations
    rw [cbf_three, prRecords_three]
    refine ⟨?_, ?_, ?_, ?_, ?_⟩ <;>
      simp [List.getD, redAdd_redMul]

/-- The private-range constructor evaluated at the concrete fixtures. -/
theorem outW1_run :
    privateRange.constructProof kfW rsW 7 (1 : Int) [vnote, vnote, vnote] 3 = .ok outW1 := rfl

/-- Witness for C1 at concrete inputs. -/
theorem privateRange_kBar_aBar_responses_witness :
    privateRange.constructProof kfW rsW 7 (1 : Int) [vnote, vnote, vnote] 3 = .ok outW1 ∧
    responseRelations kfW rsW (1 : Int) vnote vnote vnote outW1 :=
  ⟨outW1_run, privateRange_kBar_aBar_responses kfW rsW 7 1 vnote vnote vnote 3 outW1 outW1_run⟩

/-- A concrete note whose gamma differs from the fixture note, used to
exhibit the rolling-hash chaining of the blinding factors. -/
def cnote2 : Note Int := ⟨1, 1, 100, 1, 9⟩

/-- C2 as frozen is false on the code: the third blinding point does not
use the scalar x obtained by the (single) finalization of the rolling hash
over all notes; at this concrete input the produced B_2 differs from the
claimed ((bk_0 - bk_1) * x) * gamma_2 + (ba_2 * x) * h. -/
theorem privateRange_blinding_chain_counterexample :
    ¬ (((privateRange.constructBlindingFactors (1 : Int) kfW rsW [vnote, vnote, cnote2]
          (appendNotes Keccak.new [vnote, vnote, cnote2])).getD 2 ⟨0, 0, 0⟩).B =
        redMul (redSub (randomGroupScalar rsW 1) (randomGroupScalar rsW 3))
            ((appendNotes Keccak.new [vnote, vnote, cnote2]).keccak kfW nOrder).1 •
          cnote2.gamma +
        redMul (randomGroupScalar rsW 4)
            ((appendNotes Keccak.new [vnote, vnote, cnote2]).keccak kfW nOrder).1 •
          (1 : Int)) := by decide

/-- C2 amended. For every private-range proof over three notes, the
blinding points satisfy B_0 = bk_0 * gamma_0 + ba_0 * h (no rolling-hash
factor), B_1 = (bk_1 * x1) * gamma_1 + (ba_1 * x1) * h where x1 is the
first finalization of the rolling Keccak hash over all notes' (gamma,
sigma) pairs mod n, and B_2 = ((bk_0 - bk_1) * x2) * gamma_2 +
(ba_2 * x2) * h where x2 is the second finalization: the buffer, reseeded
with the first digest, finalized again mod n. -/
theorem privateRange_blinding_factor_chain {G : Type} [PointGroup G]
    (kf : List Nat → Nat) (rs : Nat → Nat) (h : G) (n0 n1 n2 : Note G) :
    let st := appendNotes Keccak.new [n0, n1, n2]
    let x1 := (st.keccak kf nOrder).1
    let x2 := ((st.keccak kf nOrder).2.keccak kf nOrder).1
    let bk0 := randomGroupScalar rs 1
    let ba0 := randomGroupScalar rs 0
    let bk1 := randomGroupScalar rs 3
    let ba1 := randomGroupScalar rs 2
    let ba2 := randomGroupScalar rs 4
    privateRange.constructBlindingFactors h kf rs [n0, n1, n2] st =
      [⟨bk0, ba0, bk0 • n0.gamma + ba0 • h⟩,
       ⟨bk1, ba1, redMul bk1 x1 • n1.gamma + redMul ba1 x1 • h⟩,
       ⟨redSub bk0 bk1, ba2,
        redMul (redSub bk0 bk1) x2 • n2.gamma + redMul ba2 x2 • h⟩] :=
  cbf_three h kf rs n0 n1 n2 (appendNotes Keccak.new [n0, n1, n2])

/-- C9. On the blinding records returned by constructBlindingFactors for
three notes, the third bk is itself the mod-n difference of the first two:
it is overwritten before the point B_2 is formed, so the relation holds on
the returned records. -/
theorem privateRange_bk_relation {G : Type} [PointGroup G]
    (kf : List Nat → Nat) (rs : Nat → Nat) (h : G) (n0 n1 n2 : Note G) (st : Keccak) :
    let bfs := privateRange.constructBlindingFactors h kf rs [n0, n1, n2] st
    let d : BlindingFactor G := ⟨0, 0, 0⟩
    (bfs.getD 2 d).bk = redSub (bfs.getD 0 d).bk (bfs.getD 1 d).bk ∧
    Int.ModEq (nOrder : Int) (((bfs.getD 2 d).bk : Nat) : Int)
      ((((bfs.getD 0 d).bk : Nat) : Int) - (((bfs.getD 1 d).bk : Nat) : Int)) ∧
    (bfs.getD 2 d).bk < nOrder := by
  intro bfs d
  rw [show bfs = privateRange.constructBlindingFactors h kf rs [n0, n1, n2] st from rfl,
    cbf_three]
  refine ⟨rfl, ?_, redSub_lt _ _⟩
  exact redSub_modEq _ _
    (le_trans (Nat.le_of_lt (randomGroupScalar_lt rs 3)) (Nat.le_add_left _ _))

/-- C5. The third record's kBar slot of every private-range proof is the
fresh random value rb reduced mod n: a scalar in [0, n) fully determined
by the random bytes alone, not k_2 * c + bk_2. -/
theorem privateRange_third_kBar_random_filler {G : Type} [PointGroup G]
    (kf : List Nat → Nat) (rs : Nat → Nat) (rb : Nat) (h : G)
    (n0 n1 n2 : Note G) (sender : Nat) (out : privateRange.PRProofOutput)
    (hok : privateRange.constructProof kf rs rb h [n0, n1, n2] sender = .ok out) :
    (out.proofData.getD 2 []).getD 0 0 = rb % nOrder ∧ rb % nOrder < nOrder := by
  unfold privateRange.constructProof at hok
  cases hp : parseInputs [n0, n1, n2] sender 0 0 with
  | error e => rw [hp] at hok; cases hok
  | ok u =>
    rw [hp] at hok
    simp only [Except.ok.injEq] at hok
    subst hok
    rw [cbf_three, prRecords_three]
    exact ⟨rfl, Nat.mod_lt _ nOrder_pos⟩

/-- Witness for C5 at concrete inputs. -/
theorem privateRange_third_kBar_random_filler_witness :
    privateRange.constructProof kfW rsW 7 (1 : Int) [vnote, vnote, vnote] 3 = .ok outW1 ∧
    ((outW1.proofData.getD 2 []).getD 0 0 = 7 % nOrder ∧ 7 % nOrder < nOrder) :=
  ⟨outW1_run, privateRange_third_kBar_random_filler kfW rsW 7 1 vnote vnote vnote 3 outW1 outW1_run⟩

/-- C6. The bilateral-swap blinding records over four notes reuse the
first two bk scalars for the last two notes: bk_3 = bk_1 and bk_4 = bk_2
(1-indexed), the defining invariant of the swap proof. -/
theorem bilateralSwap_blinding_scalar_pairs {G : Type} [PointGroup G]
    (kf : List Nat → Nat) (rs : Nat → Nat) (h : G) (n0 n1 n2 n3 : Note G) (st : Keccak) :
    let bfs := (bilateralSwap.getBlindingFactorsAndChallenge kf rs h [n0, n1, n2, n3] st).1
    let d : BlindingFactor G := ⟨0, 0, 0⟩
    (bfs.getD 2 d).bk = (bfs.getD 0 d).bk ∧ (bfs.getD 3 d).bk = (bfs.getD 1 d).bk := by
  intro bfs d
  exact ⟨rfl, rfl⟩

theorem checkNote_viewing_key {G : Type} [PointGroup G] (note : Note G)
    (ha : note.a = 0 ∨ nOrder ≤ note.a) :
    checkNote note = .error .VIEWING_KEY_MALFORMED := by
  unfold checkNote
  rw [if_pos ha]

theorem checkNote_value {G : Type} [PointGroup G] (note : Note G)
    (ha : ¬ (note.a = 0 ∨ nOrder ≤ note.a)) (hk : K_MAX < note.k) :
    checkNote note = .error .NOTE_VALUE_TOO_BIG := by
  unfold checkNote
  rw [if_neg ha, if_pos hk]

theorem checkNote_infinity {G : Type} [PointGroup G] (note : Note G)
    (ha : ¬ (note.a = 0 ∨ nOrder ≤ note.a)) (hk : ¬ K_MAX < note.k)
    (hi : atInfinity note.gamma ∨ atInfinity note.sigma) :
    checkNote note = .error .POINT_AT_INFINITY := by
  unfold checkNote
  rw [if_neg ha, if_neg hk, if_pos hi]

theorem checkNote_curve {G : Type} [PointGroup G] (note : Note G)
    (ha : ¬ (note.a = 0 ∨ nOrder ≤ note.a)) (hk : ¬ K_MAX < note.k)
    (hi : ¬ (atInfinity note.gamma ∨ atInfinity note.sigma))
    (hc : ¬ (onCurve note.gamma ∧ onCurve note.sigma)) :
    checkNote note = .error .NOT_ON_CURVE := by
  unfold checkNote
  rw [if_neg ha, if_neg hk, if_neg hi, if_pos (by exact hc)]

theorem parseInputs_note_error {G : Type} [PointGroup G] (note : Note G)
    (rest : List (Note G)) (sender m kPublic : Nat) (e : ErrorCode)
    (hce : checkNote note = .error e) :
    parseInputs (note :: rest) sender m kPublic = .error e := by
  unfold parseInputs
  have hcn : checkNotes (note :: rest) = .error e := by
    unfold checkNotes
    rw [hce]
  rw [hcn]

theorem parseInputs_kPublic_error {G : Type} [PointGroup G] (notes : List (Note G))
    (sender m kPublic : Nat) (hok : checkNotes notes = .ok ())
    (hk : nOrder ≤ kPublic) :
    parseInputs notes sender m kPublic = .error .KPUBLIC_MALFORMED := by
  unfold parseInputs
  rw [hok, if_pos hk]

theorem parseInputs_m_error {G : Type} [PointGroup G] (notes : List (Note G))
    (sender m kPublic : Nat) (hok : checkNotes notes = .ok ())
    (hk : ¬ nOrder ≤ kPublic) (hm : notes.length < m) :
    parseInputs notes sender m kPublic = .error .M_TOO_BIG := by
  unfold parseInputs
  rw [hok, if_neg hk, if_pos hm]

theorem constructProof_parseError {G : Type} [PointGroup G] (kf : List Nat → Nat)
    (rs : Nat → Nat) (h : G) (notes : List (Note G)) (m sender kPublic : Nat)
    (e : ErrorCode) (hpe : parseInputs notes sender m kPublic = .error e) :
    joinSplit.constructProof kf rs h notes m sender kPublic = .error e := by
  unfold joinSplit.constructProof
  rw [hpe]

theorem pField_pos : 0 < pField := by decide

/-- C3. Each minimal targeted malformation of a join-split input makes
constructProof fail with precisely the corresponding named error code:
kPublic at or above n gives KPUBLIC_MALFORMED; m above the note count gives
M_TOO_BIG; a gamma coordinate outside the base field (hence off curve)
gives NOT_ON_CURVE; sigma equal to gamma + (-gamma) (the identity) gives
POINT_AT_INFINITY; a zero viewing key gives VIEWING_KEY_MALFORMED; a value
of K_MAX + 1 gives NOTE_VALUE_TOO_BIG. -/
theorem joinSplit_error_codes {G : Type} [PointGroup G] (kf : List Nat → Nat)
    (rs : Nat → Nat) (h : G) (sender : Nat) :
    (∀ (notes : List (Note G)) (m kPublic : Nat), checkNotes notes = .ok () →
       nOrder ≤ kPublic →
       joinSplit.constructProof kf rs h notes m sender kPublic = .error .KPUBLIC_MALFORMED) ∧
    (∀ (notes : List (Note G)) (m kPublic : Nat), checkNotes notes = .ok () →
       kPublic < nOrder → notes.length < m →
       joinSplit.constructProof kf rs h notes m sender kPublic = .error .M_TOO_BIG) ∧
    (∀ (note : Note G) (rest : List (Note G)) (m kPublic : Nat),
       ¬ (note.a = 0 ∨ nOrder ≤ note.a) → note.k ≤ K_MAX → ¬ atInfinity note.sigma →
       pField ≤ px note.gamma →
       joinSplit.constructProof kf rs h (note :: rest) m sender kPublic =
         .error .NOT_ON_CURVE) ∧
    (∀ (note : Note G) (rest : List (Note G)) (m kPublic : Nat),
       ¬ (note.a = 0 ∨ nOrder ≤ note.a) → note.k ≤ K_MAX →
       note.sigma = note.gamma + -note.gamma →
       joinSplit.constructProof kf rs h (note :: rest) m sender kPublic =
         .error .POINT_AT_INFINITY) ∧
    (∀ (note : Note G) (rest : List (Note G)) (m kPublic : Nat), note.a = 0 →
       joinSplit.constructProof kf rs h (note :: rest) m sender kPublic =
         .error .VIEWING_KEY_MALFORMED) ∧
    (∀ (note : Note G) (rest : List (Note G)) (m kPublic : Nat),
       ¬ (note.a = 0 ∨ nOrder ≤ note.a) → note.k = K_MAX + 1 →
       joinSplit.constructProof kf rs h (note :: rest) m sender kPublic =
         .error .NOTE_VALUE_TOO_BIG) := by
  refine ⟨?_, ?_, ?_, ?_, ?_, ?_⟩
  · intro notes m kPublic hcn hk
    exact constructProof_parseError kf rs h notes m sender kPublic _
      (parseInputs_kPublic_error notes sender m kPublic hcn hk)
  · intro notes m kPublic hcn hk hm
    exact constructProof_parseError kf rs h notes m sender kPublic _
      (parseInputs_m_error notes sender m kPublic hcn (Nat.not_le.mpr hk) hm)
  · intro note rest m kPublic ha hk hs hx
    apply constructProof_parseError
    apply parseInputs_note_error
    apply checkNote_curve note ha (Nat.not_lt.mpr hk)
    · intro hi
      rcases hi with hi | hi
      · have h0 : px note.gamma = 0 := hi.1
        rw [h0] at hx
        exact absurd hx (Nat.not_le.mpr pField_pos)
      · exact hs hi
    · intro hcurve
      exact absurd hcurve.1.1 (Nat.not_lt.mpr hx)
  · intro note rest m kPublic ha hk hsig
    apply constructProof_parseError
    apply parseInputs_note_error
    apply checkNote_infinity note ha (Nat.not_lt.mpr hk)
    right
    have hz : note.sigma = 0 := by rw [hsig, add_neg_cancel]
    rw [hz]
    exact ⟨PointGroup.px_zero, PointGroup.py_zero⟩
  · intro note rest m kPublic ha
    exact constructProof_parseError kf rs h _ m sender kPublic _
      (parseInputs_note_error note rest sender m kPublic _
        (checkNote_viewing_key note (Or.inl ha)))
  · intro note rest m kPublic ha hk
    apply constructProof_parseError
    apply parseInputs_note_error
    exact checkNote_value note ha (by rw [hk]; exact Nat.lt_succ_self _)

/-- A note whose gamma coordinate lies outside the base field. -/
def wnote3 : Note Int := ⟨1, 1, (pField : Int), 1, 9⟩

/-- A note whose sigma is the point at infinity. -/
def wnote4 : Note Int := ⟨1, 1, 1, 0, 9⟩

/-- A note with a zero viewing key. -/
def wnote5 : Note Int := ⟨1, 0, 1, 1, 9⟩

/-- A note whose value is K_MAX + 1. -/
def wnote6 : Note Int := ⟨4294967296, 1, 1, 1, 9⟩

/-- Witness for C3: the six malformations at concrete inputs. -/
theorem joinSplit_error_codes_witness :
    joinSplit.constructProof kfW rsW (1 : Int) [vnote] 0 3 nOrder =
      .error .KPUBLIC_MALFORMED ∧
    joinSplit.constructProof kfW rsW (1 : Int) [vnote] 500 3 0 = .error .M_TOO_BIG ∧
    joinSplit.constructProof kfW rsW (1 : Int) [wnote3] 0 3 0 = .error .NOT_ON_CURVE ∧
    joinSplit.constructProof kfW rsW (1 : Int) [wnote4] 0 3 0 =
      .error .POINT_AT_INFINITY ∧
    joinSplit.constructProof kfW rsW (1 : Int) [wnote5] 0 3 0 =
      .error .VIEWING_KEY_MALFORMED ∧
    joinSplit.constructProof kfW rsW (1 : Int) [wnote6] 0 3 0 =
      .error .NOTE_VALUE_TOO_BIG :=
  ⟨(joinSplit_error_codes kfW rsW 1 3).1 [vnote] 0 nOrder rfl (Nat.le_refl _),
   (joinSplit_error_codes kfW rsW 1 3).2.1 [vnote] 500 0 rfl nOrder_pos (by decide),
   (joinSplit_error_codes kfW rsW 1 3).2.2.1 wnote3 [] 0 0 (by decide) (by decide)
     (by decide) (by decide),
   (joinSplit_error_codes kfW rsW 1 3).2.2.2.1 wnote4 [] 0 0 (by decide) (by decide)
     (by decide),
   (joinSplit_error_codes kfW rsW 1 3).2.2.2.2.1 wnote5 [] 0 0 rfl,
   (joinSplit_error_codes kfW rsW 1 3).2.2.2.2.2 wnote6 [] 0 0 (by decide) rfl⟩

theorem mkRecords_length {G : Type} [PointGroup G] (c kPub : Nat) :
    ∀ (l : List (Note G × BlindingFactor G)),
      (joinSplit.mkRecords c kPub l).length = l.length := by
  intro l
  induction l with
  | nil => rfl
  | cons p tail ih =>
    cases tail with
    | nil => cases p; rfl
    | cons q tail' =>
      cases p with
      | mk note bf =>
        have hstep : joinSplit.mkRecords c kPub ((note, bf) :: q :: tail') =
            [redAdd (redMul note.k c) bf.bk, redAdd (redMul note.a c) bf.ba,
             px note.gamma, py note.gamma, px note.sigma, py note.sigma]
              :: joinSplit.mkRecords c kPub (q :: tail') := rfl
        rw [hstep, List.length_cons, ih]
        rfl

theorem mkRecords_six {G : Type} [PointGroup G] (c kPub : Nat) :
    ∀ (l : List (Note G × BlindingFactor G)),
      ∀ rec ∈ joinSplit.mkRecords c kPub l, rec.length = 6 := by
  intro l
  induction l with
  | nil => intro rec hrec; simp [joinSplit.mkRecords] at hrec
  | cons p tail ih =>
    cases tail with
    | nil =>
      cases p with
      | mk note bf =>
        intro rec hrec
        simp only [joinSplit.mkRecords, List.mem_singleton] at hrec
        subst hrec
        rfl
    | cons q tail' =>
      cases p with
      | mk note bf =>
        intro rec hrec
        have hstep : joinSplit.mkRecords c kPub ((note, bf) :: q :: tail') =
            [redAdd (redMul note.k c) bf.bk, redAdd (redMul note.a c) bf.ba,
             px note.gamma, py note.gamma, px note.sigma, py note.sigma]
              :: joinSplit.mkRecords c kPub (q :: tail') := rfl
        rw [hstep] at hrec
        rcases List.mem_cons.mp hrec with hrec | hrec
        · subst hrec; rfl
        · exact ih rec hrec

theorem getLast?_cons_of_ne_nil {α : Type} (a : α) (l : List α) (hne : l ≠ []) :
    (a :: l).getLast? = l.getLast? := by
  cases l with
  | nil => exact absurd rfl hne
  | cons b t => exact List.getLast?_cons_cons

theorem mkRecords_getLast {G : Type} [PointGroup G] (c kPub : Nat) :
    ∀ (l : List (Note G × BlindingFactor G)), l ≠ [] →
      (joinSplit.mkRecords c kPub l).getLast?.bind List.head? = some kPub := by
  intro l
  induction l with
  | nil => intro hne; exact absurd rfl hne
  | cons p tail ih =>
    intro _
    cases tail with
    | nil => cases p; rfl
    | cons q tail' =>
      cases p with
      | mk note bf =>
        have hstep : joinSplit.mkRecords c kPub ((note, bf) :: q :: tail') =
            [redAdd (redMul note.k c) bf.bk, redAdd (redMul note.a c) bf.ba,
             px note.gamma, py note.gamma, px note.sigma, py note.sigma]
              :: joinSplit.mkRecords c kPub (q :: tail') := rfl
        have hne2 : joinSplit.mkRecords c kPub (q :: tail') ≠ [] := by
          apply List.ne_nil_of_length_pos
          rw [mkRecords_length]
          exact Nat.succ_pos _
        rw [hstep, getLast?_cons_of_ne_nil _ _ hne2]
        exact ih (List.cons_ne_nil q tail')

theorem constrainBk_length (bks : List Nat) (m bkPublic N : Nat) :
    (joinSplit.constrainBk bks m bkPublic N).length = bks.length := by
  unfold joinSplit.constrainBk
  split
  · rfl
  · exact List.length_set bks _ _

/-- The length of the zipped note and blinding-record list of the
join-split constructor equals the note count. -/
theorem jsZip_length {G : Type} [PointGroup G] (rs : Nat → Nat) (h : G)
    (notes : List (Note G)) (m bkPublic : Nat) :
    (notes.zip (List.zipWith
      (fun (note : Note G) (p : Nat × Nat) =>
        (⟨p.1, p.2, p.1 • note.gamma + p.2 • h⟩ : BlindingFactor G))
      notes
      (((joinSplit.blindingScalars rs notes.length).map (fun p => p.1)
          |> (joinSplit.constrainBk · m bkPublic notes.length)).zip
        ((joinSplit.blindingScalars rs notes.length).map (fun p => p.2))))).length =
      notes.length := by
  rw [List.length_zip, List.length_zipWith, List.length_zip, constrainBk_length,
    List.length_map, List.length_map]
  unfold joinSplit.blindingScalars
  rw [List.length_map, List.length_range]
  omega

/-- C4. Every join-split proof over notes with a valid kPublic emits one
record per note, a 66-character challenge string, and the final record's
kBar slot holds kPublic itself. -/
theorem joinSplit_wellformed_output {G : Type} [PointGroup G] (kf : List Nat → Nat)
    (rs : Nat → Nat) (h : G) (notes : List (Note G)) (m sender kPublic : Nat)
    (out : joinSplit.JSProofOutput)
    (hok : joinSplit.constructProof kf rs h notes m sender kPublic = .ok out)
    (hne : notes ≠ []) :
    out.proofData.length = notes.length ∧
    (∀ rec ∈ out.proofData, rec.length = 6) ∧
    out.challengeHex.length = 66 ∧
    out.proofData.getLast?.bind List.head? = some kPublic := by
  unfold joinSplit.constructProof at hok
  cases hp : parseInputs notes sender m kPublic with
  | error e => rw [hp] at hok; cases hok
  | ok u =>
    rw [hp] at hok
    simp only [Except.ok.injEq] at hok
    subst hok
    refine ⟨?_, mkRecords_six _ _ _, hexStr_length _, ?_⟩
    · rw [mkRecords_length]
      exact jsZip_length rs h notes m _
    · apply mkRecords_getLast
      apply List.ne_nil_of_length_pos
      rw [jsZip_length rs h notes m]
      exact List.length_pos.mpr hne

/-- The join-split constructor evaluated at the concrete five-note fixtures. -/
theorem outW5_run :
    joinSplit.constructProof kfW rsW (1 : Int) [vnote, vnote, vnote, vnote, vnote] 2 3 0 =
      .ok outW5 := rfl

/-- Witness for C4 at concrete inputs. -/
theorem joinSplit_wellformed_output_witness :
    joinSplit.constructProof kfW rsW (1 : Int) [vnote, vnote, vnote, vnote, vnote] 2 3 0 =
      .ok outW5 ∧
    (outW5.proofData.length = 5 ∧
     (∀ rec ∈ outW5.proofData, rec.length = 6) ∧
     outW5.challengeHex.length = 66 ∧
     outW5.proofData.getLast?.bind List.head? = some 0) :=
  ⟨outW5_run,
   joinSplit_wellformed_output kfW rsW 1 [vnote, vnote, vnote, vnote, vnote] 2 3 0 outW5
     outW5_run (List.cons_ne_nil _ _)⟩

theorem prRecords_slots {G : Type} [PointGroup G] (rb c : Nat) :
    ∀ (i : Nat) (notes : List (Note G)) (bfs : List (BlindingFactor G)),
      ∀ rec ∈ privateRange.prRecords rb c i notes bfs,
        rec.getD 0 0 < nOrder ∧ rec.getD 1 0 < nOrder := by
  intro i notes
  induction notes generalizing i with
  | nil => intro bfs rec hrec; simp [privateRange.prRecords] at hrec
  | cons note ns ih =>
    intro bfs rec hrec
    cases bfs with
    | nil => simp [privateRange.prRecords] at hrec
    | cons bf bfs' =>
      have hstep : privateRange.prRecords rb c i (note :: ns) (bf :: bfs') =
          [if i ≤ 1 then redAdd (redMul note.k c) bf.bk else rb % nOrder,
           redAdd (redMul note.a c) bf.ba,
           px note.gamma, py note.gamma, px note.sigma, py note.sigma]
            :: privateRange.prRecords rb c (i + 1) ns bfs' := rfl
      rw [hstep] at hrec
      rcases List.mem_cons.mp hrec with hrec | hrec
      · subst hrec
        constructor
        · show (if i ≤ 1 then redAdd (redMul note.k c) bf.bk else rb % nOrder) < nOrder
          split
          · exact redAdd_lt _ _
          · exact Nat.mod_lt _ nOrder_pos
        · exact redAdd_lt _ _
      · exact ih (i + 1) bfs' rec hrec

theorem mkRecords_slots {G : Type} [PointGroup G] (c kPub : Nat) (hkp : kPub < nOrder) :
    ∀ (l : List (Note G × BlindingFactor G)),
      ∀ rec ∈ joinSplit.mkRecords c kPub l,
        rec.getD 0 0 < nOrder ∧ rec.getD 1 0 < nOrder := by
  intro l
  induction l with
  | nil => intro rec hrec; simp [joinSplit.mkRecords] at hrec
  | cons p tail ih =>
    cases tail with
    | nil =>
      cases p with
      | mk note bf =>
        intro rec hrec
        simp only [joinSplit.mkRecords, List.mem_singleton] at hrec
        subst hrec
        exact ⟨hkp, redAdd_lt _ _⟩
    | cons q tail' =>
      cases p with
      | mk note bf =>
        intro rec hrec
        have hstep : joinSplit.mkRecords c kPub ((note, bf) :: q :: tail') =
            [redAdd (redMul note.k c) bf.bk, redAdd (redMul note.a c) bf.ba,
             px note.gamma, py note.gamma, px note.sigma, py note.sigma]
              :: joinSplit.mkRecords c kPub (q :: tail') := rfl
        rw [hstep] at hrec
        rcases List.mem_cons.mp hrec with hrec | hrec
        · subst hrec
          exact ⟨redAdd_lt _ _, redAdd_lt _ _⟩
        · exact ih rec hrec

theorem parseInputs_ok_kPublic {G : Type} [PointGroup G] (notes : List (Note G))
    (sender m kPublic : Nat) (hok : parseInputs notes sender m kPublic = .ok ()) :
    kPublic < nOrder := by
  unfold parseInputs at hok
  cases hc : checkNotes notes with
  | error e => rw [hc] at hok; cases hok
  | ok u =>
    rw [hc] at hok
    by_cases hk : nOrder ≤ kPublic
    · rw [if_pos hk] at hok; cases hok
    · exact Nat.lt_of_not_le hk

/-- C7. Every kBar and every aBar slot emitted by the private-range and
join-split constructors on validated inputs is a scalar in [0, n). -/
theorem proof_scalars_in_range :
    (∀ {G : Type} [PointGroup G] (kf : List Nat → Nat) (rs : Nat → Nat) (rb : Nat)
       (h : G) (notes : List (Note G)) (sender : Nat) (out : privateRange.PRProofOutput),
       privateRange.constructProof kf rs rb h notes sender = .ok out →
       ∀ rec ∈ out.proofData, rec.getD 0 0 < nOrder ∧ rec.getD 1 0 < nOrder) ∧
    (∀ {G : Type} [PointGroup G] (kf : List Nat → Nat) (rs : Nat → Nat) (h : G)
       (notes : List (Note G)) (m sender kPublic : Nat) (out : joinSplit.JSProofOutput),
       joinSplit.constructProof kf rs h notes m sender kPublic = .ok out →
       ∀ rec ∈ out.proofData, rec.getD 0 0 < nOrder ∧ rec.getD 1 0 < nOrder) := by
  constructor
  · intro G _ kf rs rb h notes sender out hok
    unfold privateRange.constructProof at hok
    cases hp : parseInputs notes sender 0 0 with
    | error e => rw [hp] at hok; cases hok
    | ok u =>
      rw [hp] at hok
      simp only [Except.ok.injEq] at hok
      subst hok
      exact prRecords_slots rb _ 0 notes _
  · intro G _ kf rs h notes m sender kPublic out hok
    unfold joinSplit.constructProof at hok
    cases hp : parseInputs notes sender m kPublic with
    | error e => rw [hp] at hok; cases hok
    | ok u =>
      rw [hp] at hok
      simp only [Except.ok.injEq] at hok
      subst hok
      cases u
      exact mkRecords_slots _ kPublic
        (parseInputs_ok_kPublic notes sender m kPublic hp) _

/-- Witness for C7 at concrete inputs, for both constructors. -/
theorem proof_scalars_in_range_witness :
    (privateRange.constructProof kfW rsW 7 (1 : Int) [vnote, vnote, vnote] 3 = .ok outW1 ∧
     ∀ rec ∈ outW1.proofData, rec.getD 0 0 < nOrder ∧ rec.getD 1 0 < nOrder) ∧
    (joinSplit.constructProof kfW rsW (1 : Int) [vnote, vnote, vnote, vnote, vnote] 2 3 0 =
       .ok outW5 ∧
     ∀ rec ∈ outW5.proofData, rec.getD 0 0 < nOrder ∧ rec.getD 1 0 < nOrder) :=
  ⟨⟨outW1_run,
    proof_scalars_in_range.1 kfW rsW 7 1 [vnote, vnote, vnote] 3 outW1 outW1_run⟩,
   ⟨outW5_run,
    proof_scalars_in_range.2 kfW rsW 1 [vnote, vnote, vnote, vnote, vnote] 2 3 0 outW5
      outW5_run⟩⟩

theorem divRecords_six {G : Type} [PointGroup G] (c : Nat) :
    ∀ (l : List (Note G × BlindingFactor G)),
      ∀ rec ∈ dividendComputation.divRecords c l, rec.length = 6 := by
  intro l
  induction l with
  | nil => intro rec hrec; simp [dividendComputation.divRecords] at hrec
  | cons p tail ih =>
    cases p with
    | mk note bf =>
      intro rec hrec
      simp only [dividendComputation.divRecords, List.mem_cons] at hrec
      rcases hrec with hrec | hrec
      · subst hrec; rfl
      · exact ih rec hrec

/-- C8. Every dividend-computation proof over exactly three valid notes
emits 3 unformatted records of 6 elements each, a flattened proofData of
exactly 18 elements, and a 66-character challenge string. -/
theorem dividendComputation_output_shape {G : Type} [PointGroup G]
    (kf : List Nat → Nat) (rs : Nat → Nat) (h : G) (n0 n1 n2 : Note G)
    (za zb sender : Nat) (out : dividendComputation.DivProofOutput)
    (hok : dividendComputation.constructProof kf rs h [n0, n1, n2] za zb sender = .ok out) :
    out.proofDataUnformatted.length = 3 ∧
    (∀ rec ∈ out.proofDataUnformatted, rec.length = 6) ∧
    out.proofData.length = 18 ∧
    out.challengeHex.length = 66 := by
  unfold dividendComputation.constructProof at hok
  rw [if_neg (by simp : ¬ ([n0, n1, n2].length ≠ 3))] at hok
  cases hp : parseInputs [n0, n1, n2] sender 0 0 with
  | error e => rw [hp] at hok; cases hok
  | ok u =>
    rw [hp] at hok
    simp only [Except.ok.injEq] at hok
    subst hok
    exact ⟨rfl, divRecords_six _ _, rfl, hexStr_length _⟩

/-- The dividend constructor evaluated at the concrete fixtures. -/
theorem outD_run :
    dividendComputation.constructProof kfW rsW (1 : Int) [vnote, vnote, vnote] 100 5 3 =
      .ok outD := rfl

/-- Witness for C8 at concrete inputs. -/
theorem dividendComputation_output_shape_witness :
    dividendComputation.constructProof kfW rsW (1 : Int) [vnote, vnote, vnote] 100 5 3 =
      .ok outD ∧
    (outD.proofDataUnformatted.length = 3 ∧
     (∀ rec ∈ outD.proofDataUnformatted, rec.length = 6) ∧
     outD.proofData.length = 18 ∧
     outD.challengeHex.length = 66) :=
  ⟨outD_run,
   dividendComputation_output_shape kfW rsW 1 vnote vnote vnote 100 5 3 outD outD_run⟩

/-- C10. For every caller input and every output coder, the expected-output
blob built by encodePrivateRangeTransaction is the coder applied to a
single proofOutput entry whose publicOwner is the zero address and whose
publicValue is 0: no caller input reaches these two fields. -/
theorem encodePrivateRangeTransaction_public_fields {G : Type} [PointGroup G]
    (kf : List Nat → Nat) (rs : Nat → Nat) (rb : Nat) (h : G)
    (ic : List (List Nat) → String → List Nat → List Nat → List (Note G) → String)
    (enc : List (privateRange.ProofOutputEntry G) → String)
    (orig comp util : List (Note G)) (sender : Nat) (r : privateRange.PRProofOutput)
    (hok : privateRange.constructProof kf rs rb h ((orig ++ comp) ++ util) sender = .ok r) :
    privateRange.encodePrivateRangeTransaction kf rs rb h ic enc orig comp util sender =
      .ok (ic r.proofData (hexStr r.challenge) ((orig ++ comp).map (fun m => m.owner))
             (util.map (fun n => n.owner)) util,
           "0x" ++ (enc [⟨orig ++ comp, util, privateRange.ZERO_ADDRESS, 0,
                          hexStr r.challenge⟩]).drop 0x42) := by
  unfold privateRange.encodePrivateRangeTransaction
  simp only [hok]

/-- A constant stand-in for the input coder, used to evaluate the model. -/
def icW : List (List Nat) → String → List Nat → List Nat → List (Note Int) → String :=
  fun _ _ _ _ _ => "ic"

/-- A constant stand-in for the output coder, used to evaluate the model. -/
def encW : List (privateRange.ProofOutputEntry Int) → String := fun _ => "enc"

/-- The fixture private-range run, stated over the concatenated note lists. -/
theorem outW1_run_append :
    privateRange.constructProof kfW rsW 7 (1 : Int) (([vnote] ++ [vnote]) ++ [vnote]) 3 =
      .ok outW1 := outW1_run

/-- Witness for C10 at concrete inputs. -/
theorem encodePrivateRangeTransaction_public_fields_witness :
    privateRange.constructProof kfW rsW 7 (1 : Int) (([vnote] ++ [vnote]) ++ [vnote]) 3 =
      .ok outW1 ∧
    privateRange.encodePrivateRangeTransaction kfW rsW 7 (1 : Int) icW encW
        [vnote] [vnote] [vnote] 3 =
      .ok (icW outW1.proofData (hexStr outW1.challenge)
             (([vnote] ++ [vnote]).map (fun m => m.owner))
             ([vnote].map (fun n => n.owner)) [vnote],
           "0x" ++ (encW [⟨[vnote] ++ [vnote], [vnote], privateRange.ZERO_ADDRESS, 0,
                           hexStr outW1.challenge⟩]).drop 0x42) :=
  ⟨outW1_run_append,
   encodePrivateRangeTransaction_public_fields kfW rsW 7 1 icW encW [vnote] [vnote] [vnote]
     3 outW1 outW1_run_append⟩

end Aztec
